import Mathlib

/-!
Verification of the spectral transform pipeline of `src/audio_utils.py`
(`process_audio`), embedded shallowly in Lean.

Conventions of the embedding:

* Machine floats are modelled as exact rationals (`ℚ`); the claims under
  study concern control flow, lengths, element selection and ordering, none
  of which depend on rounding.
* A complex frequency bin (`numpy` complex value) is a pair `(re, im) : ℚ × ℚ`.
* Python exceptions raised inside the `try:` block of `process_audio`
  (`TypeError` from subscripting `None`, `IndexError` from an out-of-range
  `numpy` index, `ValueError` from the FFT routines, `ZeroDivisionError`
  from `1.0 / sample_rate`) are modelled with `Except Err`; the
  `except Exception` handler that returns `(None, None)` becomes the
  conversion to `Option` in `transform` / `process_audio`.
* `np.abs` on complex bins is modelled by the squared magnitude
  `magSq (re, im) = re² + im²`.  Squaring is strictly monotone on the
  nonnegative reals, so every comparison, sort order, selected threshold
  position and equality tie computed by the source on `np.abs` values
  coincides with the one computed here on `magSq` values.
* `np.sort` (ascending) is modelled by `List.insertionSort (· ≤ ·)`: the
  ascending sorted permutation of a list of rationals is unique as a list,
  so any correct sort produces the same list.
* The calls into `numpy.fft` are modelled by an abstract `FFTModel`
  carrying exactly the library facts the claims rest on (output lengths and
  preservation of the zero signal, per the numpy documentation); theorems
  quantify over every model, and a small concrete instance `modelFFT` is
  used to evaluate closed statements.
-/

namespace AudioUtils

/-- Exceptions that can be raised inside the `try:` block of
`process_audio`, plus the loader failure of `scipy.io.wavfile.read`. -/
inductive Err
  | valueError
  | typeError
  | indexError
  | zeroDivisionError
  | loadError
deriving DecidableEq

/-- A complex frequency bin, as the pair of its real and imaginary parts. -/
abbrev RatC : Type := ℚ × ℚ

/-- The zero complex bin. -/
def zeroC : RatC := (0, 0)

/-- Squared magnitude of a complex bin; order-isomorphic stand-in for
`np.abs` (see the header comment). -/
def magSq (b : RatC) : ℚ := b.1 * b.1 + b.2 * b.2

/-- Multiplication of a complex bin by a real scalar, as in
`fft_data[band] *= eq_settings[...]`. -/
def cmul (g : ℚ) (b : RatC) : RatC := (g * b.1, g * b.2)

/-- The eq settings dictionary built by the callers:
`{'bass': ..., 'mid': ..., 'treble': ...}`. -/
structure EqSettings where
  bass : ℚ
  mid : ℚ
  treble : ℚ
deriving DecidableEq

/-- Contract of the `numpy.fft` routines used by `process_audio`, per the
numpy documentation:

* `np.fft.rfft(a)` on a nonempty input of length `N` returns `N / 2 + 1`
  complex bins, and maps the zero signal to the zero spectrum (the DFT is
  linear);
* `np.fft.irfft(a)` with the default `n` returns `2 * (len(a) - 1)` real
  samples (so recovering an odd-length input would need an explicit `n`,
  which the source does not pass), and maps the zero spectrum to the zero
  signal.

Theorems below hold for every model satisfying this contract, hence in
particular for the real FFT. -/
structure FFTModel where
  rfft : List ℚ → List RatC
  irfft : List RatC → List ℚ
  rfft_length : ∀ xs : List ℚ, xs ≠ [] → (rfft xs).length = xs.length / 2 + 1
  rfft_zero : ∀ n : ℕ, 0 < n →
    rfft (List.replicate n (0 : ℚ)) = List.replicate (n / 2 + 1) zeroC
  irfft_length : ∀ s : List RatC, 2 ≤ s.length → (irfft s).length = 2 * (s.length - 1)
  irfft_zero : ∀ m : ℕ, 2 ≤ m →
    irfft (List.replicate m zeroC) = List.replicate (2 * (m - 1)) (0 : ℚ)

/-- `np.fft.rfft(audio_data)` (line 73): raises `ValueError` on an empty
input (`Invalid number of FFT data points`), otherwise defers to the model. -/
def rfftE (fft : FFTModel) (audio : List ℚ) : Except Err (List RatC) :=
  if audio.isEmpty then .error .valueError else .ok (fft.rfft audio)

/-- `np.fft.irfft(fft_data)` with default `n = 2*(len-1)` (line 91): raises
`ValueError` when fewer than two bins are supplied (`n` would be `≤ 0`),
otherwise defers to the model. -/
def irfftE (fft : FFTModel) (s : List RatC) : Except Err (List ℚ) :=
  if s.length < 2 then .error .valueError else .ok (fft.irfft s)

/-- The frequency axis `np.fft.rfftfreq(N, 1.0 / sample_rate)`:
bin `k ↦ k * rate / N`, for `k < N / 2 + 1`. -/
def freqAxis (N : ℕ) (rate : ℤ) : List ℚ :=
  (List.range (N / 2 + 1)).map (fun (k : ℕ) => (k : ℚ) * (rate : ℚ) / (N : ℚ))

/-- Line 74, `np.fft.rfftfreq(len(audio_data), 1.0 / sample_rate)`: the
division `1.0 / sample_rate` raises `ZeroDivisionError` when the integer
sample rate read from the file is `0`. -/
def rfftfreqE (rate : ℤ) (N : ℕ) : Except Err (List ℚ) :=
  if rate = 0 then .error .zeroDivisionError else .ok (freqAxis N rate)

/-- One masked in-place multiplication `fft_data[mask] *= g` (boolean mask
computed from the frequency axis). -/
def applyMask (mask : ℚ → Bool) (g : ℚ) (freqs : List ℚ) (spec : List RatC) :
    List RatC :=
  List.zipWith (fun f b => if mask f then cmul g b else b) freqs spec

/-- Lines 76-82: the three band masks `fft_freqs < 250`,
`(fft_freqs >= 250) & (fft_freqs < 4000)`, `fft_freqs >= 4000` and the
three sequential masked multiplications.  Subscripting `eq_settings['bass']`
when `eq_settings` is `None` raises `TypeError` before any bin is touched. -/
def eqStep (eq : Option EqSettings) (freqs : List ℚ) (spec : List RatC) :
    Except Err (List RatC) :=
  match eq with
  | none => .error .typeError
  | some e =>
    let s1 := applyMask (fun f => decide (f < 250)) e.bass freqs spec
    let s2 := applyMask (fun f => decide (250 ≤ f) && decide (f < 4000)) e.mid freqs s1
    let s3 := applyMask (fun f => decide (4000 ≤ f)) e.treble freqs s2
    .ok s3

/-- Zero a bin whose (squared) magnitude is strictly below the threshold,
as in `fft_data[magnitudes < threshold_value] = 0`. -/
def zeroIfBelow (t : ℚ) (b : RatC) : RatC := if magSq b < t then zeroC else b

/-- Lines 84-89: when `compression_ratio > 0`, compute all magnitudes, take
`threshold_index = int(len(magnitudes) * compression_ratio)` (truncation
toward zero; the product is nonnegative here, so this is the floor), sort
the magnitudes ascending, read `sorted_magnitudes[threshold_index]`
(raising `IndexError` when the index is out of range) and zero every bin
strictly below that value. -/
def compressStep (ratio : ℚ) (spec : List RatC) : Except Err (List RatC) :=
  if 0 < ratio then
    let mags := spec.map magSq
    let sorted := mags.insertionSort (· ≤ ·)
    let idx := ⌊(mags.length : ℚ) * ratio⌋₊
    match sorted.get? idx with
    | none => .error .indexError
    | some t => .ok (spec.map (zeroIfBelow t))
  else .ok spec

/-- Absolute value on ℚ, written out so that it evaluates by unfolding. -/
def qabs (q : ℚ) : ℚ := if q < 0 then -q else q

/-- Binary maximum on ℚ, written out so that it evaluates by unfolding. -/
def qmax (a b : ℚ) : ℚ := if a ≤ b then b else a

/-- `np.max(np.abs(processed_audio))` for a nonempty list (the empty case
is guarded separately in `normQuant`): all entries of the fold are
nonnegative, so a `0` base gives the true maximum. -/
def maxAbs (l : List ℚ) : ℚ := l.foldr (fun x a => qmax (qabs x) a) 0

/-- Truncation toward zero, the rounding mode of `astype(np.int16)` applied
to a float. -/
def ratTrunc (q : ℚ) : ℤ := if 0 ≤ q then ⌊q⌋ else ⌈q⌉

/-- Conversion to a 16-bit signed integer with wraparound.  (The wraparound
branch is provably never exercised by the pipeline — see claim C7 — so the
choice of out-of-range behavior is immaterial.) -/
def toInt16 (q : ℚ) : ℤ := (ratTrunc q + 32768) % 65536 - 32768

/-- Lines 93-97: when the peak `max_val` is positive every sample is scaled
by `32767 / peak`; otherwise the `if max_val > 0` branch is skipped and the
samples are left unscaled. -/
def normalizeStep (out : List ℚ) : List ℚ :=
  if 0 < maxAbs out then out.map (fun x => x / maxAbs out * 32767) else out

/-- Lines 93-99: peak normalization and 16-bit quantization.
`np.max` of an empty array raises `ValueError`;
`astype(np.int16)` truncates toward zero. -/
def normQuant (out : List ℚ) : Except Err (List ℤ) :=
  if out.isEmpty then .error .valueError
  else .ok ((normalizeStep out).map toInt16)

/-- Lines 73-101: the body of the `try:` block from the forward transform
onward, operating on the decoded mono float buffer (the spec's
`transform(buffer, sampleRate, eq, compression)`). -/
def transformBody (fft : FFTModel) (rate : ℤ) (audio : List ℚ)
    (eq : Option EqSettings) (ratio : ℚ) : Except Err (ℤ × List ℤ) :=
  match rfftE fft audio with
  | .error e => .error e
  | .ok spec0 =>
    match rfftfreqE rate audio.length with
    | .error e => .error e
    | .ok freqs =>
      match eqStep eq freqs spec0 with
      | .error e => .error e
      | .ok spec1 =>
        match compressStep ratio spec1 with
        | .error e => .error e
        | .ok spec2 =>
          match irfftE fft spec2 with
          | .error e => .error e
          | .ok out =>
            match normQuant out with
            | .error e => .error e
            | .ok final => .ok (rate, final)

/-- The buffer-level transform with the `except Exception` handler of lines
67 and 103-105: any raised exception is caught and reported as the failure
result `(None, None)`, modelled as `none`. -/
def transform (fft : FFTModel) (rate : ℤ) (audio : List ℚ)
    (eq : Option EqSettings) (ratio : ℚ) : Option (ℤ × List ℤ) :=
  match transformBody fft rate audio eq ratio with
  | .ok res => some res
  | .error _ => none

/-- Raw data as returned by `scipy.io.wavfile.read`: a 1-D mono array or a
2-D `(frames × channels)` array. -/
abbrev AudioND : Type := List ℚ ⊕ List (List ℚ)

/-- Lines 69-71: collapse a stereo array to mono by the per-frame channel
mean (`audio_data.mean(axis=1)`); `astype(np.float32)` is the identity in
the exact model. -/
def collapse (nd : AudioND) : List ℚ :=
  match nd with
  | .inl mono => mono
  | .inr rows => rows.map (fun row => row.sum / (row.length : ℚ))

/-- Python truthiness of the `filepath` argument: `not filepath` is `True`
exactly for `None` and the empty string. -/
def isFalsy (filepath : Option String) : Bool :=
  match filepath with
  | none => true
  | some s => s.isEmpty

/-- Lines 59-105, `process_audio(filepath, eq_settings, compression_ratio)`:
the falsy-filepath early return (before the `try:` block), the file read
(`fs` models `scipy.io.wavfile.read`, which raises on a missing or
malformed file), the mono collapse, and the transform pipeline; every
exception inside the `try:` block yields the failure result `none`. -/
def process_audio (fft : FFTModel) (fs : String → Except Err (ℤ × AudioND))
    (filepath : Option String) (eq : Option EqSettings) (ratio : ℚ) :
    Option (ℤ × List ℤ) :=
  if isFalsy filepath then none
  else
    match
      ((match fs (filepath.getD "") with
        | .error e => .error e
        | .ok (rate, nd) => transformBody fft rate (collapse nd) eq ratio) :
        Except Err (ℤ × List ℤ)) with
    | .ok res => some res
    | .error _ => none

/-- A concrete `FFTModel` instance used to evaluate closed statements.  It
is not the discrete Fourier transform; the closed statements below depend
only on the contract facts, which every model shares. -/
def modelFFT : FFTModel where
  rfft xs := List.replicate (xs.length / 2 + 1) (xs.foldr (· + ·) 0, 0)
  irfft s := List.replicate (2 * (s.length - 1)) (s.foldr (fun b a => b.1 + a) 0)
  rfft_length := by
    intro xs _
    simp
  rfft_zero := by
    intro n _
    have h : ∀ m : ℕ, (List.replicate m (0 : ℚ)).foldr (· + ·) 0 = 0 := by
      intro m
      induction m with
      | zero => rfl
      | succ k ih => simp [List.replicate, ih]
    simp [h n, zeroC]
  irfft_length := by
    intro s _
    simp
  irfft_zero := by
    intro m _
    have h : ∀ k : ℕ, (List.replicate k zeroC).foldr (fun b a => b.1 + a) 0 = 0 := by
      intro k
      induction k with
      | zero => rfl
      | succ j ih =>
        rw [List.replicate_succ, List.foldr_cons, ih]
        simp [zeroC]
    simp [h m]

/-- Unity gains, the identity eq settings. -/
def unityEq : EqSettings := ⟨1, 1, 1⟩

/-- The number of non-zero frequency bins of a spectrum. -/
def nonzeroCount (l : List RatC) : ℕ := l.countP (fun b => decide (b ≠ zeroC))

/-- The k-th smallest element of a list (1-based, the standard reading of
the spec's selection wording): position `k - 1` of the ascending sort. -/
def kthSmallest (k : ℕ) (l : List ℚ) : Option ℚ :=
  (l.insertionSort (· ≤ ·)).get? (k - 1)

/-- Modelled from the spec's words for claim C4 only (not from the source):
`numToRemove = floor(len(SpectrumBuffer) × compression)`; if
`numToRemove > 0`, the threshold is "the `numToRemove`-th smallest
magnitude value" (read 1-based, as "k-th smallest" standardly is), every
bin strictly below it is zeroed and bins at it are kept; if
`numToRemove = 0` nothing is removed. -/
def compressStepSpec (ratio : ℚ) (spec : List RatC) : Option (List RatC) :=
  if 0 < ratio then
    let mags := spec.map magSq
    let k := ⌊(mags.length : ℚ) * ratio⌋₊
    if 0 < k then
      match kthSmallest k mags with
      | none => none
      | some t => some (spec.map (zeroIfBelow t))
    else some spec
  else some spec

/-! Helper lemmas. -/

/-- A transform body error is reported as the failure result `none`. -/
theorem transform_eq_none_of_error {fft : FFTModel} {rate : ℤ} {audio : List ℚ}
    {eq : Option EqSettings} {ratio : ℚ} {e : Err}
    (h : transformBody fft rate audio eq ratio = .error e) :
    transform fft rate audio eq ratio = none := by
  simp [transform, h]

/-- A transform success comes from a successful body run. -/
theorem transformBody_ok_of_some {fft : FFTModel} {rate : ℤ} {audio : List ℚ}
    {eq : Option EqSettings} {ratio : ℚ} {p : ℤ × List ℤ}
    (h : transform fft rate audio eq ratio = some p) :
    transformBody fft rate audio eq ratio = .ok p := by
  unfold transform at h
  cases hb : transformBody fft rate audio eq ratio with
  | ok q => rw [hb] at h; cases h; rfl
  | error e => rw [hb] at h; cases h

/-- A nonpositive compression ratio skips the compression branch. -/
theorem compressStep_of_nonpos {ratio : ℚ} (h : ratio ≤ 0) (s : List RatC) :
    compressStep ratio s = .ok s := by
  unfold compressStep
  rw [if_neg (not_lt.2 h)]

/-- A ratio at or above one pushes `threshold_index` past the end of the
sorted magnitude array, and the indexing raises `IndexError`. -/
theorem compressStep_err_of_one_le {ratio : ℚ} (h : 1 ≤ ratio)
    (s : List RatC) (hs : s ≠ []) :
    compressStep ratio s = .error .indexError := by
  have hpos : (0 : ℚ) < ratio := lt_of_lt_of_le one_pos h
  have hlen : 0 < s.length := List.length_pos.2 hs
  have hidx : ((s.map magSq).insertionSort (· ≤ ·)).length ≤
      ⌊((s.map magSq).length : ℚ) * ratio⌋₊ := by
    rw [List.length_insertionSort, List.length_map]
    refine Nat.le_floor ?_
    calc (s.length : ℚ) = (s.length : ℚ) * 1 := by ring
    _ ≤ (s.length : ℚ) * ratio := by
        exact mul_le_mul_of_nonneg_left h (by positivity)
  have hget : ((s.map magSq).insertionSort (· ≤ ·)).get?
      ⌊((s.map magSq).length : ℚ) * ratio⌋₊ = none :=
    List.get?_eq_none.2 hidx
  unfold compressStep
  rw [if_pos hpos]
  simp only [hget]

/-- Successful forward transform: the buffer was nonempty and the model
was consulted. -/
theorem rfftE_ok {fft : FFTModel} {audio : List ℚ} {spec0 : List RatC}
    (h : rfftE fft audio = .ok spec0) :
    audio ≠ [] ∧ spec0 = fft.rfft audio := by
  unfold rfftE at h
  by_cases he : audio.isEmpty
  · rw [if_pos he] at h; cases h
  · rw [if_neg he] at h
    cases h
    exact ⟨by simpa [List.isEmpty_iff] using he, rfl⟩

/-- Successful frequency-axis computation: the sample rate was nonzero. -/
theorem rfftfreqE_ok {rate : ℤ} {N : ℕ} {freqs : List ℚ}
    (h : rfftfreqE rate N = .ok freqs) :
    rate ≠ 0 ∧ freqs = freqAxis N rate := by
  unfold rfftfreqE at h
  by_cases hr : rate = 0
  · rw [if_pos hr] at h; cases h
  · rw [if_neg hr] at h; cases h; exact ⟨hr, rfl⟩

/-- The frequency axis has one entry per non-negative frequency bin. -/
theorem length_freqAxis (N : ℕ) (rate : ℤ) :
    (freqAxis N rate).length = N / 2 + 1 := by
  unfold freqAxis
  rw [List.length_map, List.length_range]

/-- Equalization preserves the spectrum length (each mask pass is a
`zipWith` with the frequency axis). -/
theorem eqStep_ok_length {eq : Option EqSettings} {freqs : List ℚ}
    {spec s1 : List RatC} (h : eqStep eq freqs spec = .ok s1) :
    s1.length = min freqs.length spec.length := by
  cases eq with
  | none => simp [eqStep] at h
  | some e =>
    simp only [eqStep, Except.ok.injEq] at h
    subst h
    simp only [applyMask, List.length_zipWith]
    omega

/-- Compression preserves the spectrum length. -/
theorem compressStep_ok_length {ratio : ℚ} {s o : List RatC}
    (h : compressStep ratio s = .ok o) : o.length = s.length := by
  unfold compressStep at h
  by_cases hr : 0 < ratio
  · rw [if_pos hr] at h
    cases hg : ((s.map magSq).insertionSort (· ≤ ·)).get?
        ⌊((s.map magSq).length : ℚ) * ratio⌋₊ with
    | none => simp only [hg] at h; cases h
    | some t =>
      simp only [hg, Except.ok.injEq] at h
      subst h
      simp
  · rw [if_neg hr] at h
    cases h
    rfl

/-- Successful inverse transform: at least two bins were supplied and the
model was consulted. -/
theorem irfftE_ok {fft : FFTModel} {s : List RatC} {out : List ℚ}
    (h : irfftE fft s = .ok out) :
    2 ≤ s.length ∧ out = fft.irfft s := by
  unfold irfftE at h
  by_cases hl : s.length < 2
  · rw [if_pos hl] at h; cases h
  · rw [if_neg hl] at h; cases h; exact ⟨not_lt.1 hl, rfl⟩

/-- `qabs` is the absolute value. -/
theorem qabs_eq_abs (q : ℚ) : qabs q = |q| := by
  unfold qabs
  rcases lt_or_le q 0 with h | h
  · rw [if_pos h, abs_of_neg h]
  · rw [if_neg (not_lt.2 h), abs_of_nonneg h]

/-- `qmax` is the maximum. -/
theorem qmax_eq_max (a b : ℚ) : qmax a b = max a b := by
  unfold qmax
  rw [max_def]

/-- The peak is an upper bound of every absolute sample value. -/
theorem abs_le_maxAbs {l : List ℚ} {x : ℚ} (hx : x ∈ l) : |x| ≤ maxAbs l := by
  induction l with
  | nil => cases hx
  | cons y l ih =>
    unfold maxAbs
    rw [List.foldr_cons, qmax_eq_max, qabs_eq_abs]
    rcases List.mem_cons.1 hx with rfl | hx
    · exact le_max_left _ _
    · exact le_trans (ih hx) (le_max_right _ _)

/-- The peak is nonnegative. -/
theorem maxAbs_nonneg (l : List ℚ) : 0 ≤ maxAbs l := by
  induction l with
  | nil => exact le_refl 0
  | cons y l ih =>
    unfold maxAbs
    rw [List.foldr_cons, qmax_eq_max]
    exact le_trans ih (le_max_right _ _)

/-- Normalization preserves the buffer length. -/
theorem normalizeStep_length (out : List ℚ) :
    (normalizeStep out).length = out.length := by
  unfold normalizeStep
  split
  · rw [List.length_map]
  · rfl

/-- Every sample produced by the normalization step has absolute value at
most `32767`: when the peak is positive every scaled sample is bounded by
the scale target, and a zero peak forces every sample to be zero. -/
theorem normalizeStep_abs_le (out : List ℚ) :
    ∀ y ∈ normalizeStep out, |y| ≤ 32767 := by
  intro y hy
  unfold normalizeStep at hy
  by_cases hmx : 0 < maxAbs out
  · rw [if_pos hmx] at hy
    obtain ⟨x, hx, rfl⟩ := List.mem_map.1 hy
    have hxb : |x| ≤ maxAbs out := abs_le_maxAbs hx
    have h1 : |x / maxAbs out| ≤ 1 := by
      rw [abs_div, abs_of_pos hmx]
      exact (div_le_one hmx).2 hxb
    calc |x / maxAbs out * 32767| = |x / maxAbs out| * 32767 := by
          rw [abs_mul]
          norm_num
    _ ≤ 1 * 32767 := by
          exact mul_le_mul_of_nonneg_right h1 (by norm_num)
    _ = 32767 := by norm_num
  · rw [if_neg hmx] at hy
    have hx : |y| ≤ maxAbs out := abs_le_maxAbs hy
    have h0 : maxAbs out = 0 := le_antisymm (not_lt.1 hmx) (maxAbs_nonneg out)
    rw [h0] at hx
    exact le_trans hx (by norm_num)

/-- Truncation toward zero never grows the magnitude past `32767`, and the
16-bit wraparound is the identity there. -/
theorem toInt16_bounds {q : ℚ} (h : |q| ≤ 32767) :
    -32767 ≤ toInt16 q ∧ toInt16 q ≤ 32767 := by
  obtain ⟨hlo, hhi⟩ := abs_le.1 h
  have htr : -32767 ≤ ratTrunc q ∧ ratTrunc q ≤ 32767 := by
    unfold ratTrunc
    by_cases hq : 0 ≤ q
    · rw [if_pos hq]
      constructor
      · exact le_trans (by norm_num) (Int.floor_nonneg.2 hq)
      · have := Int.floor_le_floor hhi
        rwa [show ⌊(32767 : ℚ)⌋ = 32767 by norm_num] at this
    · rw [if_neg hq]
      constructor
      · have hcq : (-32767 : ℚ) ≤ (⌈q⌉ : ℚ) := le_trans hlo (Int.le_ceil q)
        exact_mod_cast hcq
      · have : ⌈q⌉ ≤ 0 := Int.ceil_le.2 (le_of_lt (not_le.1 hq))
        omega
  have hwrap : toInt16 q = ratTrunc q := by
    unfold toInt16
    have h1 : (0 : ℤ) ≤ ratTrunc q + 32768 := by omega
    have h2 : ratTrunc q + 32768 < 65536 := by omega
    rw [Int.emod_eq_of_lt h1 h2]
    omega
  rw [hwrap]
  exact htr

/-- Quantization inversion: a successful `normQuant` run comes from a
nonempty reconstruction and is the quantized normalized buffer. -/
theorem normQuant_ok {out : List ℚ} {final : List ℤ}
    (h : normQuant out = .ok final) :
    out ≠ [] ∧ final = (normalizeStep out).map toInt16 := by
  unfold normQuant at h
  by_cases he : out.isEmpty
  · rw [if_pos he] at h; cases h
  · rw [if_neg he] at h
    cases h
    exact ⟨by simpa [List.isEmpty_iff] using he, rfl⟩

/-- Success-path inversion for the transform body: a success implies the
buffer was nonempty, records the spectrum length entering the inverse
transform, and exposes the reconstruction fed to `normQuant`. -/
theorem transformBody_ok_inv {fft : FFTModel} {rate : ℤ} {audio : List ℚ}
    {eq : Option EqSettings} {ratio : ℚ} {p : ℤ × List ℤ}
    (h : transformBody fft rate audio eq ratio = .ok p) :
    ∃ spec2 out, audio ≠ [] ∧
      spec2.length = audio.length / 2 + 1 ∧
      out = fft.irfft spec2 ∧ 2 ≤ spec2.length ∧
      normQuant out = .ok p.2 ∧ p.1 = rate := by
  unfold transformBody at h
  split at h
  · cases h
  · rename_i spec0 h0
    split at h
    · cases h
    · rename_i freqs h1
      split at h
      · cases h
      · rename_i spec1 h2
        split at h
        · cases h
        · rename_i spec2 h3
          split at h
          · cases h
          · rename_i out h4
            split at h
            · cases h
            · rename_i final h5
              cases h
              obtain ⟨hae, hsp0⟩ := rfftE_ok h0
              obtain ⟨hr0, hfr⟩ := rfftfreqE_ok h1
              obtain ⟨h2le, hirf⟩ := irfftE_ok h4
              refine ⟨spec2, out, hae, ?_, hirf, h2le, h5, rfl⟩
              have hl1 := eqStep_ok_length h2
              have hl2 := compressStep_ok_length h3
              rw [hfr, length_freqAxis, hsp0, fft.rfft_length audio hae] at hl1
              rw [hl2, hl1]
              exact min_self _

/-- Claim C1, counterexample: the odd-length buffer `[0, 0, 1]` (a valid
input: nonempty, positive sample rate) is transformed into a buffer of
length `2`, not `3` — `np.fft.irfft` with its default size argument
returns `2 * (⌊N/2⌋ + 1 - 1)` samples. -/
theorem c1_length_counterexample :
    transform modelFFT 8 [0, 0, 1] (some unityEq) 0 = some (8, [32767, 32767]) ∧
    ([(32767 : ℤ), 32767].length = 2 ∧ ([(0 : ℚ), 0, 1].length = 3)) := by
  refine ⟨?_, by simp, by simp⟩
  norm_num [transform, transformBody, rfftE, rfftfreqE, eqStep, compressStep, irfftE,
    normQuant, normalizeStep, freqAxis, applyMask, cmul, magSq, zeroC, zeroIfBelow,
    maxAbs, qabs, qmax, ratTrunc, toInt16, modelFFT, unityEq, List.range_succ,
    List.range_zero, List.replicate_succ, List.replicate_zero]

/-- Claim C1, amended: whenever the transform succeeds, the output length
is `2 * ⌊N/2⌋` for input length `N` — equal to `N` exactly when `N` is
even (the inverse transform's default size drops the last sample of an
odd-length input). -/
theorem c1_output_length_amended (fft : FFTModel) (rate : ℤ) (audio : List ℚ)
    (eq : Option EqSettings) (ratio : ℚ) (p : ℤ × List ℤ)
    (h : transform fft rate audio eq ratio = some p) :
    p.2.length = 2 * (audio.length / 2) ∧
    (audio.length % 2 = 0 → p.2.length = audio.length) := by
  have hb := transformBody_ok_of_some h
  obtain ⟨spec2, out, hae, hlen, hout, h2le, hnq, hrate⟩ := transformBody_ok_inv hb
  obtain ⟨hne, hfin⟩ := normQuant_ok hnq
  have hfl : p.2.length = out.length := by
    rw [hfin, List.length_map, normalizeStep_length]
  have hol : out.length = 2 * (spec2.length - 1) := by
    rw [hout]
    exact fft.irfft_length spec2 h2le
  have hmain : p.2.length = 2 * (audio.length / 2) := by
    rw [hfl, hol, hlen]
    omega
  refine ⟨hmain, fun heven => ?_⟩
  rw [hmain]
  have := Nat.div_add_mod audio.length 2
  omega

/-- Claim C1, witness for the amended statement on the even-length buffer
`[1, 0]`. -/
theorem c1_output_length_witness :
    ([(32767 : ℤ), 32767].length = 2 * ([(1 : ℚ), 0].length / 2)) ∧
    ([(32767 : ℤ), 32767].length = [(1 : ℚ), 0].length) := by
  have h : transform modelFFT 8 [1, 0] (some unityEq) 0 = some (8, [32767, 32767]) := by
    norm_num [transform, transformBody, rfftE, rfftfreqE, eqStep, compressStep, irfftE,
      normQuant, normalizeStep, freqAxis, applyMask, cmul, magSq, zeroC, zeroIfBelow,
      maxAbs, qabs, qmax, ratTrunc, toInt16, modelFFT, unityEq, List.range_succ,
      List.range_zero, List.replicate_succ, List.replicate_zero]
  exact ⟨(c1_output_length_amended modelFFT 8 [1, 0] (some unityEq) 0 (8, [32767, 32767]) h).1,
    (c1_output_length_amended modelFFT 8 [1, 0] (some unityEq) 0 (8, [32767, 32767]) h).2
      (by norm_num)⟩

/-- Claim C7: every element of a successfully returned output buffer lies
in the signed 16-bit range (in fact in `[-32767, 32767]`: the peak
normalization bounds every scaled sample by `32767` in absolute value, and
truncation toward zero does not grow the magnitude). -/
theorem c7_output_range (fft : FFTModel) (rate : ℤ) (audio : List ℚ)
    (eq : Option EqSettings) (ratio : ℚ) (p : ℤ × List ℤ)
    (h : transform fft rate audio eq ratio = some p) :
    ∀ v ∈ p.2, -32768 ≤ v ∧ v ≤ 32767 := by
  intro v hv
  have hb := transformBody_ok_of_some h
  obtain ⟨spec2, out, hae, hlen, hout, h2le, hnq, hrate⟩ := transformBody_ok_inv hb
  obtain ⟨hne, hfin⟩ := normQuant_ok hnq
  rw [hfin] at hv
  obtain ⟨y, hy, rfl⟩ := List.mem_map.1 hv
  have hb := toInt16_bounds (normalizeStep_abs_le out y hy)
  exact ⟨by omega, hb.2⟩

/-- Claim C7, witness on the concrete run producing `[32767, 32767]`,
evaluated at its first element. -/
theorem c7_output_range_witness :
    -32768 ≤ (32767 : ℤ) ∧ (32767 : ℤ) ≤ 32767 := by
  have h : transform modelFFT 8 [1, 1] (some unityEq) 0 = some (8, [32767, 32767]) := by
    norm_num [transform, transformBody, rfftE, rfftfreqE, eqStep, compressStep, irfftE,
      normQuant, normalizeStep, freqAxis, applyMask, cmul, magSq, zeroC, zeroIfBelow,
      maxAbs, qabs, qmax, ratTrunc, toInt16, modelFFT, unityEq, List.range_succ,
      List.range_zero, List.replicate_succ, List.replicate_zero]
  exact c7_output_range modelFFT 8 [1, 1] (some unityEq) 0 (8, [32767, 32767]) h
    32767 (by simp)

/-- Scaling the zero bin gives the zero bin. -/
theorem cmul_zeroC (g : ℚ) : cmul g zeroC = zeroC := by
  simp [cmul, zeroC]

/-- The zero bin has zero magnitude. -/
theorem magSq_zeroC : magSq zeroC = 0 := by
  simp [magSq, zeroC]

/-- A masked gain pass maps a zero spectrum to a zero spectrum. -/
theorem applyMask_replicate_zero (mask : ℚ → Bool) (g : ℚ) :
    ∀ (freqs : List ℚ) (m : ℕ),
      applyMask mask g freqs (List.replicate m zeroC)
        = List.replicate (min freqs.length m) zeroC := by
  intro freqs
  induction freqs with
  | nil => intro m; simp [applyMask]
  | cons f fs ih =>
    intro m
    cases m with
    | zero => simp [applyMask]
    | succ k =>
      unfold applyMask at ih ⊢
      rw [List.replicate_succ, List.zipWith_cons_cons, ih k]
      have hb : (if mask f then cmul g zeroC else zeroC) = zeroC := by
        split
        · exact cmul_zeroC g
        · rfl
      rw [hb]
      rw [List.length_cons, Nat.succ_min_succ, List.replicate_succ]

/-- Equalization maps a zero spectrum to a zero spectrum. -/
theorem eqStep_replicate_zero (e : EqSettings) (freqs : List ℚ) (m : ℕ) :
    eqStep (some e) freqs (List.replicate m zeroC)
      = .ok (List.replicate (min freqs.length m) zeroC) := by
  simp only [eqStep, applyMask_replicate_zero]
  rw [show min freqs.length (min freqs.length (min freqs.length m))
      = min freqs.length m by omega]

/-- Inserting a zero into a constant-zero sorted list prepends it. -/
theorem orderedInsert_replicate_zero (k : ℕ) :
    List.orderedInsert (· ≤ ·) (0 : ℚ) (List.replicate k 0)
      = List.replicate (k + 1) 0 := by
  cases k with
  | zero => rfl
  | succ j =>
    rw [List.replicate_succ, List.orderedInsert, if_pos (le_refl (0 : ℚ))]
    rw [List.replicate_succ, List.replicate_succ]

/-- Sorting a constant-zero magnitude list is the identity. -/
theorem insertionSort_replicate_zero (m : ℕ) :
    List.insertionSort (· ≤ ·) (List.replicate m (0 : ℚ))
      = List.replicate m 0 := by
  induction m with
  | zero => rfl
  | succ k ih =>
    rw [List.replicate_succ, List.insertionSort, ih, orderedInsert_replicate_zero,
      List.replicate_succ]

/-- Compression with a valid ratio maps a zero spectrum to itself: the
threshold is `0` and no magnitude is strictly below it. -/
theorem compressStep_replicate_zero {ratio : ℚ} (h0 : 0 ≤ ratio) (h1 : ratio < 1)
    {m : ℕ} (hm : 0 < m) :
    compressStep ratio (List.replicate m zeroC) = .ok (List.replicate m zeroC) := by
  rcases eq_or_lt_of_le h0 with hz | hpos
  · exact compressStep_of_nonpos (le_of_eq hz.symm) _
  · have hmags : (List.replicate m zeroC).map magSq = List.replicate m (0 : ℚ) := by
      rw [List.map_replicate, magSq_zeroC]
    have hidx : ⌊(m : ℚ) * ratio⌋₊ < m := by
      refine (Nat.floor_lt (by positivity)).2 ?_
      calc (m : ℚ) * ratio < (m : ℚ) * 1 :=
            mul_lt_mul_of_pos_left h1 (by exact_mod_cast hm)
      _ = (m : ℚ) := by ring
    have hmap : (List.replicate m zeroC).map (zeroIfBelow 0) = List.replicate m zeroC := by
      rw [List.map_replicate]
      congr 1
      unfold zeroIfBelow
      rw [magSq_zeroC, if_neg (lt_irrefl (0 : ℚ))]
    unfold compressStep
    rw [if_pos hpos]
    simp only [hmags, List.length_replicate, insertionSort_replicate_zero,
      List.get?_eq_getElem?, List.getElem?_replicate, hidx, if_true, hmap]

/-- The peak of a silent buffer is zero. -/
theorem maxAbs_replicate_zero (n : ℕ) : maxAbs (List.replicate n (0 : ℚ)) = 0 := by
  induction n with
  | zero => rfl
  | succ k ih =>
    unfold maxAbs at ih ⊢
    rw [List.replicate_succ, List.foldr_cons, ih]
    rfl

/-- Quantizing a zero sample gives the zero integer sample. -/
theorem toInt16_zero : toInt16 0 = 0 := by
  norm_num [toInt16, ratTrunc]

/-! Claim theorems (continued). -/

/-- Claim C5, counterexample: the all-zero buffer of length `1` (a silent
buffer with `N > 0`) makes the transform fail — the single-bin spectrum is
rejected by the inverse transform (`n = 0` data points) — instead of
producing an all-zero output of length `1`. -/
theorem c5_silence_counterexample :
    transform modelFFT 8 [(0 : ℚ)] (some unityEq) 0 = none := by
  norm_num [transform, transformBody, rfftE, rfftfreqE, eqStep, compressStep, irfftE,
    normQuant, normalizeStep, freqAxis, applyMask, cmul, magSq, zeroC, zeroIfBelow,
    maxAbs, qabs, qmax, ratTrunc, toInt16, modelFFT, unityEq, List.range_succ,
    List.range_zero, List.replicate_succ, List.replicate_zero]

/-- Claim C5, amended: for an all-zero input buffer of even length
`N ≥ 2`, any eq settings, a nonzero sample rate and a valid compression
ratio, the transform succeeds with the all-zero integer buffer of length
`N`; moreover the division by the peak is structurally skipped whenever
the peak is zero (the `max_val > 0` branch), so no division by zero
occurs.  (Odd lengths fall under the length defect of claim C1, and
length `1` fails as in the counterexample.) -/
theorem c5_silence_even_amended (fft : FFTModel) (rate : ℤ) (e : EqSettings)
    (ratio : ℚ) (N : ℕ) (hrate : rate ≠ 0) (hN : 2 ≤ N) (heven : N % 2 = 0)
    (hr0 : 0 ≤ ratio) (hr1 : ratio < 1) :
    transform fft rate (List.replicate N (0 : ℚ)) (some e) ratio
      = some (rate, List.replicate N (0 : ℤ)) ∧
    (maxAbs (List.replicate N (0 : ℚ)) = 0 ∧
      normalizeStep (List.replicate N (0 : ℚ)) = List.replicate N 0) := by
  constructor
  · have hne : ¬ (List.replicate N (0 : ℚ)).isEmpty := by
      simp [List.isEmpty_iff]
      omega
    have h0 : rfftE fft (List.replicate N 0)
        = .ok (List.replicate (N / 2 + 1) zeroC) := by
      unfold rfftE
      rw [if_neg hne, fft.rfft_zero N (by omega)]
    have h1 : rfftfreqE rate (List.replicate N (0 : ℚ)).length
        = .ok (freqAxis N rate) := by
      unfold rfftfreqE
      rw [if_neg hrate, List.length_replicate]
    have h2 : eqStep (some e) (freqAxis N rate) (List.replicate (N / 2 + 1) zeroC)
        = .ok (List.replicate (N / 2 + 1) zeroC) := by
      rw [eqStep_replicate_zero, length_freqAxis, min_self]
    have h3 : compressStep ratio (List.replicate (N / 2 + 1) zeroC)
        = .ok (List.replicate (N / 2 + 1) zeroC) :=
      compressStep_replicate_zero hr0 hr1 (by omega)
    have h4 : irfftE fft (List.replicate (N / 2 + 1) zeroC)
        = .ok (List.replicate N (0 : ℚ)) := by
      unfold irfftE
      rw [List.length_replicate, if_neg (by omega), fft.irfft_zero (N / 2 + 1) (by omega),
        show 2 * (N / 2 + 1 - 1) = N by omega]
    have h5 : normQuant (List.replicate N (0 : ℚ))
        = .ok (List.replicate N (0 : ℤ)) := by
      unfold normQuant normalizeStep
      rw [if_neg hne, maxAbs_replicate_zero]
      rw [if_neg (lt_irrefl (0 : ℚ)), List.map_replicate, toInt16_zero]
    simp only [transform, transformBody, h0, h1, h2, h3, h4, h5]
  · refine ⟨maxAbs_replicate_zero N, ?_⟩
    unfold normalizeStep
    rw [maxAbs_replicate_zero, if_neg (lt_irrefl (0 : ℚ))]

/-- Claim C5, witness for the amended statement: a silent four-sample
buffer at ratio `1/2`. -/
theorem c5_silence_witness :
    transform modelFFT 8 (List.replicate 4 (0 : ℚ)) (some unityEq) (1/2)
      = some (8, List.replicate 4 (0 : ℤ)) ∧
    (maxAbs (List.replicate 4 (0 : ℚ)) = 0 ∧
      normalizeStep (List.replicate 4 (0 : ℚ)) = List.replicate 4 0) :=
  c5_silence_even_amended modelFFT 8 unityEq (1/2) 4 (by norm_num) (by norm_num)
    (by norm_num) (by norm_num) (by norm_num)


/-- Claim C3, counterexample: on the two-sample buffer `[1, 0]` the
transform with `eq_settings = None` returns the failure result, while the
same call with unity gains succeeds — so absence of eq is not skipped and
does cause a failure, contrary to the claim. -/
theorem c3_eq_none_counterexample :
    transform modelFFT 8 [1, 0] none 0 = none ∧
    transform modelFFT 8 [1, 0] (some unityEq) 0 = some (8, [32767, 32767]) := by
  constructor
  · norm_num [transform, transformBody, rfftE, rfftfreqE, eqStep, compressStep, irfftE,
      normQuant, normalizeStep, freqAxis, applyMask, cmul, magSq, zeroC, zeroIfBelow,
      maxAbs, qabs, qmax, ratTrunc, toInt16, modelFFT, unityEq, List.range_succ,
      List.range_zero, List.replicate_succ, List.replicate_zero]
  · norm_num [transform, transformBody, rfftE, rfftfreqE, eqStep, compressStep, irfftE,
      normQuant, normalizeStep, freqAxis, applyMask, cmul, magSq, zeroC, zeroIfBelow,
      maxAbs, qabs, qmax, ratTrunc, toInt16, modelFFT, unityEq, List.range_succ,
      List.range_zero, List.replicate_succ, List.replicate_zero]

/-- Claim C3, amended: when the eq settings argument is `None`, the lookup
`eq_settings['bass']` raises `TypeError`, so `transform` returns the
failure result `none` for every input — absence of eq always causes a
failure, it is never skipped. -/
theorem c3_eq_none_always_fails (fft : FFTModel) (rate : ℤ) (audio : List ℚ) (ratio : ℚ) :
    transform fft rate audio none ratio = none := by
  cases h0 : rfftE fft audio with
  | error e => simp [transform, transformBody, h0]
  | ok spec0 =>
    cases h1 : rfftfreqE rate audio.length with
    | error e => simp [transform, transformBody, h0, h1]
    | ok freqs => simp [transform, transformBody, h0, h1, eqStep]

/-- Claim C10: a falsy filepath (`None` or the empty string) makes
`process_audio` return the failure result `(None, None)` immediately, for
every filesystem — so no file is ever read. -/
theorem c10_falsy_filepath (fft : FFTModel) (fs : String → Except Err (ℤ × AudioND))
    (filepath : Option String) (eq : Option EqSettings) (ratio : ℚ)
    (h : isFalsy filepath = true) :
    process_audio fft fs filepath eq ratio = none := by
  simp [process_audio, h]

/-- Claim C10, witness: concrete falsy filepaths (`None` and `""`), with a
filesystem that would fail if consulted. -/
theorem c10_falsy_filepath_witness :
    process_audio modelFFT (fun _ => Except.error Err.loadError) none (some unityEq) 0
      = none ∧
    process_audio modelFFT (fun _ => Except.error Err.loadError) (some "") (some unityEq) 0
      = none := by
  constructor
  · exact c10_falsy_filepath modelFFT (fun _ => Except.error Err.loadError) none
      (some unityEq) 0 rfl
  · exact c10_falsy_filepath modelFFT (fun _ => Except.error Err.loadError) (some "")
      (some unityEq) 0 rfl

/-- Claim C8: the transform on an empty buffer yields the failure result
(the forward transform raises on zero data points and the handler catches
it), and whenever any internal step of the body raises, the transform
yields the single failure result `none` instead of a partial buffer. -/
theorem c8_error_handling (fft : FFTModel) :
    (∀ (rate : ℤ) (eq : Option EqSettings) (ratio : ℚ),
      transform fft rate [] eq ratio = none) ∧
    (∀ (rate : ℤ) (audio : List ℚ) (eq : Option EqSettings) (ratio : ℚ) (e : Err),
      transformBody fft rate audio eq ratio = .error e →
      transform fft rate audio eq ratio = none) := by
  constructor
  · intro rate eq ratio
    simp [transform, transformBody, rfftE]
  · intro rate audio eq ratio e h
    exact transform_eq_none_of_error h

/-- Claim C8, witness: the empty buffer, and a concrete erroring run (the
`TypeError` path) both reported as `none`. -/
theorem c8_error_handling_witness :
    transform modelFFT 8 [] (some unityEq) 0 = none ∧
    transform modelFFT 8 [1, 0] none 0 = none := by
  constructor
  · exact (c8_error_handling modelFFT).1 8 (some unityEq) 0
  · refine (c8_error_handling modelFFT).2 8 [1, 0] none 0 Err.typeError ?_
    norm_num [transformBody, rfftE, rfftfreqE, eqStep, freqAxis,
      List.range_succ, List.range_zero]

/-- Claim C9, counterexample: a negative compression ratio is accepted —
on the buffer `[1, 0]` the transform with ratio `-1/2` returns a success
result, not a `ProcessingError` failure. -/
theorem c9_negative_ratio_counterexample :
    transform modelFFT 8 [1, 0] (some unityEq) (-(1 : ℚ)/2) = some (8, [32767, 32767]) ∧
    some ((8 : ℤ), [(32767 : ℤ), 32767]) ≠ (none : Option (ℤ × List ℤ)) := by
  constructor
  · norm_num [transform, transformBody, rfftE, rfftfreqE, eqStep, compressStep, irfftE,
      normQuant, normalizeStep, freqAxis, applyMask, cmul, magSq, zeroC, zeroIfBelow,
      maxAbs, qabs, qmax, ratTrunc, toInt16, modelFFT, unityEq, List.range_succ,
      List.range_zero, List.replicate_succ, List.replicate_zero]
  · simp

/-- Claim C9, amended: a negative compression ratio is not validated; the
`compression_ratio > 0` branch is simply skipped, so the call behaves
exactly as compression `0` (in particular it succeeds on otherwise-valid
input). -/
theorem c9_negative_ratio_no_validation (fft : FFTModel) (rate : ℤ) (audio : List ℚ)
    (eq : Option EqSettings) (ratio : ℚ) (h : ratio < 0) :
    transform fft rate audio eq ratio = transform fft rate audio eq 0 := by
  simp only [transform, transformBody,
    compressStep_of_nonpos h.le, compressStep_of_nonpos (le_refl (0 : ℚ))]

/-- Claim C9, witness for the amended statement at ratio `-1`. -/
theorem c9_negative_ratio_witness :
    transform modelFFT 8 [1, 0] (some unityEq) (-1)
      = transform modelFFT 8 [1, 0] (some unityEq) 0 :=
  c9_negative_ratio_no_validation modelFFT 8 [1, 0] (some unityEq) (-1) (by norm_num)

/-- Claim C2, counterexample: on the two-sample buffer `[1, 0]` the
transform with compression ratio exactly `1` yields the failure result,
not a success with only the maximal-magnitude bins kept. -/
theorem c2_ratio_one_counterexample :
    transform modelFFT 8 [1, 0] (some unityEq) 1 = none := by
  norm_num [transform, transformBody, rfftE, rfftfreqE, eqStep, compressStep, irfftE,
    normQuant, normalizeStep, freqAxis, applyMask, cmul, magSq, zeroC, zeroIfBelow,
    maxAbs, qabs, qmax, ratTrunc, toInt16, modelFFT, unityEq, List.range_succ,
    List.range_zero, List.replicate_succ, List.replicate_zero, List.insertionSort,
    List.orderedInsert, List.getElem?_cons_succ, List.getElem?_cons_zero, List.getElem?_nil]

/-- Claim C2, amended: a compression ratio at or above `1` always produces
the failure result: `threshold_index = int(len(magnitudes) * ratio)`
reaches past the end of the sorted magnitude array, the indexing raises
`IndexError`, and the handler reports `(None, None)`. -/
theorem c2_ratio_ge_one_fails (fft : FFTModel) (rate : ℤ) (audio : List ℚ)
    (eq : Option EqSettings) (ratio : ℚ) (h : 1 ≤ ratio) :
    transform fft rate audio eq ratio = none := by
  cases h0 : rfftE fft audio with
  | error e => simp [transform, transformBody, h0]
  | ok spec0 =>
    cases h1 : rfftfreqE rate audio.length with
    | error e => simp [transform, transformBody, h0, h1]
    | ok freqs =>
      cases h2 : eqStep eq freqs spec0 with
      | error e => simp [transform, transformBody, h0, h1, h2]
      | ok spec1 =>
        have hne : spec1 ≠ [] := by
          obtain ⟨hae, hsp⟩ := rfftE_ok h0
          obtain ⟨hr0, hfr⟩ := rfftfreqE_ok h1
          have hl := eqStep_ok_length h2
          rw [hfr, length_freqAxis, hsp, fft.rfft_length audio hae] at hl
          intro hnil
          rw [hnil] at hl
          simp at hl
        have hc := compressStep_err_of_one_le h spec1 hne
        simp [transform, transformBody, h0, h1, h2, hc]

/-- Claim C2, witness for the amended statement at ratio `1`. -/
theorem c2_ratio_ge_one_witness :
    transform modelFFT 8 [2, 3] (some unityEq) 1 = none :=
  c2_ratio_ge_one_fails modelFFT 8 [2, 3] (some unityEq) 1 (by norm_num)

/-- Inversion of a successful compression run with a positive ratio. -/
theorem compressStep_ok_pos {ratio : ℚ} (hr : 0 < ratio) {s o : List RatC}
    (h : compressStep ratio s = .ok o) :
    ∃ t, ((s.map magSq).insertionSort (· ≤ ·)).get?
        ⌊((s.map magSq).length : ℚ) * ratio⌋₊ = some t ∧
      o = s.map (zeroIfBelow t) := by
  unfold compressStep at h
  rw [if_pos hr] at h
  cases hg : ((s.map magSq).insertionSort (· ≤ ·)).get?
      ⌊((s.map magSq).length : ℚ) * ratio⌋₊ with
  | none =>
    simp only [hg] at h
    cases h
  | some t =>
    simp only [hg, Except.ok.injEq] at h
    exact ⟨t, rfl, h.symm⟩

/-- Pointwise comparison of nonzero counts under two bin maps. -/
theorem nonzeroCount_map_le (s : List RatC) (f g : RatC → RatC)
    (h : ∀ b ∈ s, f b ≠ zeroC → g b ≠ zeroC) :
    nonzeroCount (s.map f) ≤ nonzeroCount (s.map g) := by
  unfold nonzeroCount
  rw [List.countP_map, List.countP_map]
  refine List.countP_mono_left ?_
  intro b hb
  simp only [Function.comp_apply, decide_eq_true_eq]
  exact h b hb

/-- Two reads of the sorted magnitude list at increasing positions give
increasing values. -/
theorem sorted_get?_mono {l : List ℚ} {i j : ℕ} {a b : ℚ} (hij : i ≤ j)
    (hi : (l.insertionSort (· ≤ ·)).get? i = some a)
    (hj : (l.insertionSort (· ≤ ·)).get? j = some b) : a ≤ b := by
  have hs := List.sorted_insertionSort (· ≤ ·) l
  obtain ⟨hi', ha⟩ := List.get?_eq_some.1 hi
  obtain ⟨hj', hb⟩ := List.get?_eq_some.1 hj
  rw [← ha, ← hb]
  exact hs.rel_get_of_le hij

/-- Claim C6: for a fixed spectrum, raising the compression ratio never
increases the count of non-zero bins left by the thresholding step. -/
theorem c6_compression_monotone (s : List RatC) (r1 r2 : ℚ) (o1 o2 : List RatC)
    (h0 : 0 ≤ r1) (h12 : r1 < r2) (h2 : r2 < 1)
    (hc1 : compressStep r1 s = .ok o1) (hc2 : compressStep r2 s = .ok o2) :
    nonzeroCount o2 ≤ nonzeroCount o1 := by
  rcases eq_or_lt_of_le h0 with hz | hpos1
  · have hpos2 : 0 < r2 := by rw [← hz] at h12; exact h12
    have ho1 : o1 = s := by
      rw [compressStep_of_nonpos (le_of_eq hz.symm) s] at hc1
      cases hc1
      rfl
    obtain ⟨t2, hg2, ho2⟩ := compressStep_ok_pos hpos2 hc2
    rw [ho1, ho2]
    have hle := nonzeroCount_map_le s (zeroIfBelow t2) id ?_
    · simpa using hle
    · intro b hb hf
      simp only [id]
      intro hbz
      rw [hbz] at hf
      unfold zeroIfBelow at hf
      split at hf
      · exact hf rfl
      · exact hf rfl
  · obtain ⟨t1, hg1, ho1⟩ := compressStep_ok_pos hpos1 hc1
    have hpos2 : 0 < r2 := lt_trans hpos1 h12
    obtain ⟨t2, hg2, ho2⟩ := compressStep_ok_pos hpos2 hc2
    have hidx : ⌊((s.map magSq).length : ℚ) * r1⌋₊ ≤ ⌊((s.map magSq).length : ℚ) * r2⌋₊ :=
      Nat.floor_le_floor (mul_le_mul_of_nonneg_left h12.le (Nat.cast_nonneg _))
    have ht12 : t1 ≤ t2 := sorted_get?_mono hidx hg1 hg2
    rw [ho1, ho2]
    refine nonzeroCount_map_le s (zeroIfBelow t2) (zeroIfBelow t1) ?_
    intro b hb hf
    unfold zeroIfBelow at hf ⊢
    by_cases hm2 : magSq b < t2
    · rw [if_pos hm2] at hf
      exact absurd rfl hf
    · rw [if_neg hm2] at hf
      rw [if_neg (fun hm1 => hm2 (lt_of_lt_of_le hm1 ht12))]
      exact hf

/-- Claim C6, witness: the four-bin spectrum with magnitudes 1, 4, 9, 16 at
ratios `1/4` and `1/2`, where the remaining nonzero counts are 3 and 2. -/
theorem c6_compression_monotone_witness :
    nonzeroCount [zeroC, zeroC, ((3 : ℚ), (0 : ℚ)), (4, 0)]
      ≤ nonzeroCount [zeroC, ((2 : ℚ), (0 : ℚ)), (3, 0), (4, 0)] := by
  refine c6_compression_monotone [((1 : ℚ), (0 : ℚ)), (2, 0), (3, 0), (4, 0)] (1/4) (1/2)
    [zeroC, ((2 : ℚ), (0 : ℚ)), (3, 0), (4, 0)] [zeroC, zeroC, ((3 : ℚ), (0 : ℚ)), (4, 0)]
    (by norm_num) (by norm_num) (by norm_num) ?_ ?_
  · norm_num [compressStep, magSq, zeroIfBelow, zeroC, List.insertionSort,
      List.orderedInsert, List.get?_eq_getElem?, List.getElem?_cons_succ,
      List.getElem?_cons_zero]
  · norm_num [compressStep, magSq, zeroIfBelow, zeroC, List.insertionSort,
      List.orderedInsert, List.get?_eq_getElem?, List.getElem?_cons_succ,
      List.getElem?_cons_zero]

/-- In a list, the number of entries strictly below the value read at a
sorted position is at most that position. -/
theorem countP_lt_le_sorted_index (l : List ℚ) (i : ℕ) (t : ℚ)
    (h : (l.insertionSort (· ≤ ·)).get? i = some t) :
    l.countP (fun m => decide (m < t)) ≤ i := by
  have hperm : (l.insertionSort (· ≤ ·)).Perm l := List.perm_insertionSort _ l
  rw [← hperm.countP_eq]
  have hs := List.sorted_insertionSort (· ≤ ·) l
  obtain ⟨hi, hget⟩ := List.get?_eq_some.1 h
  set sorted := l.insertionSort (· ≤ ·) with hsort
  have hdrop : (sorted.drop i).countP (fun m => decide (m < t)) = 0 := by
    rw [List.countP_eq_zero]
    intro a ha
    obtain ⟨j, haj⟩ := List.mem_iff_get.1 ha
    have hjl : i + j.val < sorted.length := by
      have h2 : (j : ℕ) < sorted.length - i := by
        simpa [List.length_drop] using j.isLt
      omega
    have hav : a = sorted.get ⟨i + j.val, hjl⟩ := by
      rw [← haj]
      rw [List.get_drop]
    have hta : t ≤ a := by
      rw [hav, ← hget]
      exact hs.rel_get_of_le (by simp)
    simp only [decide_eq_true_eq]
    exact not_lt.2 hta
  calc sorted.countP (fun m => decide (m < t))
      = (sorted.take i).countP (fun m => decide (m < t))
        + (sorted.drop i).countP (fun m => decide (m < t)) := by
        rw [← List.countP_append, List.take_append_drop]
  _ = (sorted.take i).countP (fun m => decide (m < t)) := by
        rw [hdrop]
        omega
  _ ≤ (sorted.take i).length := List.countP_le_length _
  _ ≤ i := by
        rw [List.length_take]
        omega

/-- Claim C4, counterexample: for the spectrum with magnitudes 1, 4, 9 at
ratio `1/3`, `numToRemove = 1`; the claim's threshold — the 1st smallest
magnitude, i.e. the minimum — zeroes nothing, but the code takes
`sorted[1]` and zeroes the first bin, so the two results differ. -/
theorem c4_threshold_counterexample :
    compressStep (1/3) [((1 : ℚ), (0 : ℚ)), (2, 0), (3, 0)]
      = .ok [zeroC, ((2 : ℚ), (0 : ℚ)), (3, 0)] ∧
    compressStepSpec (1/3) [((1 : ℚ), (0 : ℚ)), (2, 0), (3, 0)]
      = some [((1 : ℚ), (0 : ℚ)), (2, 0), (3, 0)] ∧
    ([zeroC, ((2 : ℚ), (0 : ℚ)), (3, 0)] : List RatC)
      ≠ [((1 : ℚ), (0 : ℚ)), (2, 0), (3, 0)] := by
  refine ⟨?_, ?_, ?_⟩
  · norm_num [compressStep, magSq, zeroIfBelow, zeroC, List.insertionSort,
      List.orderedInsert, List.get?_eq_getElem?, List.getElem?_cons_succ,
      List.getElem?_cons_zero]
  · norm_num [compressStepSpec, kthSmallest, magSq, zeroIfBelow, zeroC,
      List.insertionSort, List.orderedInsert, List.get?_eq_getElem?,
      List.getElem?_cons_succ, List.getElem?_cons_zero]
  · norm_num [zeroC, Prod.ext_iff]

/-- Claim C4, amended: for a ratio in `(0, 1)`, the compression step takes
as threshold the element at 0-based position `numToRemove` of the
ascending magnitude sort — the `(numToRemove + 1)`-th smallest magnitude,
not the `numToRemove`-th — and returns the spectrum with exactly the bins
of strictly smaller magnitude zeroed (`zeroIfBelow` leaves bins at the
threshold unchanged by definition); at most `numToRemove` bins are below
the threshold. -/
theorem c4_compress_characterization (s : List RatC) (ratio t : ℚ)
    (hr0 : 0 < ratio) (hr1 : ratio < 1)
    (ht : ((s.map magSq).insertionSort (· ≤ ·)).get?
        ⌊((s.map magSq).length : ℚ) * ratio⌋₊ = some t) :
    compressStep ratio s = .ok (s.map (zeroIfBelow t)) ∧
    kthSmallest (⌊((s.map magSq).length : ℚ) * ratio⌋₊ + 1) (s.map magSq) = some t ∧
    (s.map magSq).countP (fun m => decide (m < t))
      ≤ ⌊((s.map magSq).length : ℚ) * ratio⌋₊ := by
  refine ⟨?_, ?_, ?_⟩
  · unfold compressStep
    rw [if_pos hr0]
    simp only [ht]
  · unfold kthSmallest
    rw [Nat.add_sub_cancel]
    exact ht
  · exact countP_lt_le_sorted_index (s.map magSq) _ t ht

/-- Claim C4, witness for the amended statement on the spectrum with
magnitudes 1, 4, 9 at ratio `1/3` (threshold `4`). -/
theorem c4_compress_witness :
    compressStep (1/3) [((1 : ℚ), (0 : ℚ)), (2, 0), (3, 0)]
      = .ok ([((1 : ℚ), (0 : ℚ)), (2, 0), (3, 0)].map (zeroIfBelow 4)) ∧
    kthSmallest
      (⌊((([((1 : ℚ), (0 : ℚ)), (2, 0), (3, 0)].map magSq).length : ℚ)) * (1/3)⌋₊ + 1)
      ([((1 : ℚ), (0 : ℚ)), (2, 0), (3, 0)].map magSq) = some 4 ∧
    ([((1 : ℚ), (0 : ℚ)), (2, 0), (3, 0)].map magSq).countP (fun m => decide (m < 4))
      ≤ ⌊((([((1 : ℚ), (0 : ℚ)), (2, 0), (3, 0)].map magSq).length : ℚ)) * (1/3)⌋₊ :=
  c4_compress_characterization [((1 : ℚ), (0 : ℚ)), (2, 0), (3, 0)] (1/3) 4
    (by norm_num) (by norm_num)
    (by norm_num [magSq, List.insertionSort, List.orderedInsert,
      List.get?_eq_getElem?, List.getElem?_cons_succ, List.getElem?_cons_zero])

end AudioUtils
